import Mathlib

/-!
Verification development for the phab-http webhook relay (phab-http.go).

The Go service receives form-encoded feed events, classifies their fields,
resolves PHID references through a cached remote lookup, and republishes the
event as an HTML message to a matrix room endpoint.  The definitions below are
a shallow embedding of that source file: pure Go functions become Lean
functions, the process-wide `sync.Map` cache becomes an explicit association
list threaded through the operations, the remote HTTP endpoints become
oracle parameters (`remote`, `parse`), and the JSON layer of `encoding/json`
is modelled by an inductive `JSON` value type.
-/

namespace PhabHttp

/-- Model of a decoded JSON document (the payloads that `encoding/json`
hands to the Go code after `json.Unmarshal`). -/
inductive JSON where
  | null
  | str (s : String)
  | num (n : Int)
  | bool (b : Bool)
  | arr (elems : List JSON)
  | obj (fields : List (String × JSON))

/-- `json.Unmarshal(b, &m)` for `m : map[string]json.RawMessage`:
succeeds on a JSON object (yielding its fields) and on `null`
(yielding the nil map); fails on every other document. -/
def getJSONFields : JSON → Option (List (String × JSON))
  | .obj fields => some fields
  | .null => some []
  | _ => none

/-- `json.Unmarshal` into `[]json.RawMessage`: an array (or `null`, giving
the nil slice); anything else is an error. -/
def asArr : JSON → Option (List JSON)
  | .arr elems => some elems
  | .null => some []
  | _ => none

/-- `json.Unmarshal` into `string`.  (A `null` leaves the Go string at its
zero value, and the code paths that consume such a value immediately fail
to re-parse the empty string, so the collapse to `none` is observationally
the same.) -/
def asString : JSON → Option String
  | .str s => some s
  | _ => none

/-- One entry of `json.Unmarshal` into `map[string]string`: a string value
is kept; a `null` value leaves the zero value `""`; any other value is a
type error. -/
def entryAsString (kv : String × JSON) : Option (String × String) :=
  match kv.2 with
  | .str s => some (kv.1, s)
  | .null => some (kv.1, "")
  | _ => none

/-- `json.Unmarshal(b, &m)` for `m : map[string]string`. -/
def asStringMap (j : JSON) : Option (List (String × String)) :=
  match j with
  | .obj fields => fields.mapM entryAsString
  | .null => some []
  | _ => none

/-- `strings.HasPrefix(s, p)` (Go compares byte-wise; UTF-8 byte order and
code-point order agree, so the character-list prefix test is the same
relation). -/
def strStartsWith (s p : String) : Bool :=
  p.data.isPrefixOf s.data

/-- `html.EscapeString` on one character. -/
def escapeChar (c : Char) : String :=
  if c = '&' then "&amp;"
  else if c = '\'' then "&#39;"
  else if c = '<' then "&lt;"
  else if c = '>' then "&gt;"
  else if c = '"' then "&#34;"
  else String.singleton c

/-- `strings.Join(l, "")`, written with a cons equation. -/
def joinStrs : List String → String
  | [] => ""
  | s :: rest => s ++ joinStrs rest

/-- Go's `html.EscapeString`. -/
def escapeString (s : String) : String :=
  joinStrs (s.data.map escapeChar)

/-- `strings.Replace(s, ",", " ", -1)`. -/
def replaceCommas (s : String) : String :=
  String.mk (s.data.map (fun c => if c = ',' then ' ' else c))

/-- The `Config` fields that the routing/resolution core reads.  In `main`,
`room` is already the URL produced by `getMatrixPost` for the
`SYNAPSE_FEED_ROOM` room name, `resolving` is the comma-split
`SYNAPSE_FEED_PHIDS` list, and `lookups` is the alias table from
`initLookups`. -/
structure Config where
  room : String
  resolving : List String
  lookups : List (String × String)
  url : String
  token : String

/-- `getMatrixPost`: `fmt.Sprintf(MatrixPost, conf.url, room, conf.token)`. -/
def getMatrixPost (conf : Config) (room : String) : String :=
  conf.url ++ "/_matrix/client/r0/rooms/" ++ room ++
    "/send/m.room.message?access_token=" ++ conf.token

/-- `isPHID`: the token must start with the `"PHID-"` marker, and the inner
loop looks for some configured type prefix `t` with
`strings.HasPrefix(value, "PHID-" + t + "-")` (break on first hit). -/
def isPHID (value : String) (phids : List String) : Bool :=
  if strStartsWith value "PHID-" then
    phids.any (fun t => strStartsWith value ("PHID-" ++ t ++ "-"))
  else false

/-- The `sync.Map` PHID cache, observed through `Load`/`Store`:
an association list from identifier to its resolved fragments. -/
def Cache := List (String × List String)

/-- `conf.cache.Load(k)`. -/
def cacheLoad (c : Cache) (k : String) : Option (List String) :=
  List.lookup k c

/-- `conf.cache.Store(k, v)`: the entry is prepended and `cacheLoad` reads
the most recent write, so a later `Store` for the same key shadows the
earlier one — exactly the behaviour `sync.Map.Store` shows through
`Load`. -/
def cacheStore (c : Cache) (k : String) (v : List String) : Cache :=
  (k, v) :: c

/-- The value stored for one well-parsed object of the `phid.query`
response: the hyperlink fragment, plus the `"aka: "` fragment when the
alias table knows the display name. -/
def fragmentsOf (m : List (String × String)) (lookups : List (String × String)) : List String :=
  ("<a href='" ++ ((m.lookup "uri").getD "") ++ "'>" ++
      escapeString ((m.lookup "name").getD "") ++ "</a>") ::
    (match lookups.lookup ((m.lookup "name").getD "") with
     | some val => ["aka: " ++ replaceCommas val]
     | none => [])

/-- The cache key `final["phid"]` that `resolvePHIDs` stores under for one
response object, when that object unmarshals into `map[string]string`. -/
def storeKeyOf (v : JSON) : Option String :=
  (asStringMap v).map (fun m => (m.lookup "phid").getD "")

/-- All cache keys stored while walking a response-object list. -/
def storeKeys (objs : List JSON) : List String :=
  objs.filterMap storeKeyOf

/-- One iteration of the store loop of `resolvePHIDs`: a response object
that unmarshals into `map[string]string` is stored under its `phid`
field; a malformed object is skipped (`continue`). -/
def storeStep (lookups : List (String × String)) (c : Cache) (v : JSON) : Cache :=
  match asStringMap v with
  | none => c
  | some m => cacheStore c ((m.lookup "phid").getD "") (fragmentsOf m lookups)

/-- The store loop of `resolvePHIDs` over the whole response-object list. -/
def processResponse (objs : List JSON) (lookups : List (String × String))
    (cache : Cache) : Cache :=
  objs.foldl (storeStep lookups) cache

/-- Unwrapping of a `phid.query` reply: `getJSON(obj)` then
`getJSON(output["result"])`, then the iteration over the values of the
result map.  Every failure yields no objects (so no store happens). -/
def responseObjects (r : Option JSON) : List JSON :=
  match r.bind getJSONFields with
  | none => []
  | some output =>
    match (output.lookup "result").bind getJSONFields with
    | none => []
    | some res => res.map Prod.snd

/-- The cache-miss scan at the top of `resolvePHIDs` (first loop). -/
def misses (resolving : List String) (cache : Cache) : List String :=
  resolving.filter (fun e => (cacheLoad cache e).isNone)

/-- Lexicographic less-or-equal on character lists: the order Go uses to
compare strings (Go compares UTF-8 bytes; byte order and code-point
order agree under UTF-8). -/
def leChars : List Char → List Char → Bool
  | [], _ => true
  | _ :: _, [] => false
  | a :: as, b :: bs => if a < b then true else if b < a then false else leChars as bs

/-- Lexicographic less-or-equal on strings. -/
def strLe (a b : String) : Bool :=
  leChars a.data b.data

/-- String insertion preserving order; `sortStrings` below produces the
sorted permutation of its input, which is exactly what Go's
`sort.Strings` produces (duplicate strings are indistinguishable, so the
sorted permutation of a string list is unique). -/
def insertSorted (a : String) : List String → List String
  | [] => [a]
  | b :: rest => if strLe a b then a :: b :: rest else b :: insertSorted a rest

/-- `sort.Strings` (see `insertSorted`). -/
def sortStrings : List String → List String
  | [] => []
  | a :: rest => insertSorted a (sortStrings rest)

/-- The second pass of `resolvePHIDs`: walk the original input order,
append every cached fragment, and finally `sort.Strings` the result when
it is non-empty. -/
def finalPass (resolving : List String) (c : Cache) : List String :=
  let results := resolving.foldl (fun acc e =>
    match cacheLoad c e with
    | some val => acc ++ val
    | none => acc) []
  if results.isEmpty then results else sortStrings results

/-- What one call of `resolvePHIDs` produces: the returned display strings,
the cache afterwards, and the batched remote calls issued (each recorded
as the list of identifiers it carried). -/
structure ResolveResult where
  results : List String
  cache : Cache
  calls : List (List String)

/-- `resolvePHIDs(resolving, conf)`.  `remote` is the `phid.query` endpoint:
it maps the batched identifier list to the (possibly unparsable) reply. -/
def resolvePHIDs (resolving : List String) (lookups : List (String × String))
    (cache : Cache) (remote : List String → Option JSON) : ResolveResult :=
  let phids := misses resolving cache
  if phids.isEmpty then
    ⟨finalPass resolving cache, cache, []⟩
  else
    let cache2 := processResponse (responseObjects (remote phids)) lookups cache
    ⟨finalPass resolving cache2, cache2, [phids]⟩

/-- `emitVal`: the `val` string of `execute` — the HTML-escaped text, with
the references footer appended when the fragment list is non-empty. -/
def emitVal (text : String) (phids : List String) : String :=
  let val := escapeString text
  if phids.isEmpty then val
  else val ++ "<br /> (references: " ++ String.intercalate ", " phids ++ ")"

/-- `execute(text, url, conf, phids)`: the JSON message map posted to the
matrix endpoint, in insertion order. -/
def execute (text : String) (url : String) (phids : List String) : List (String × String) :=
  [("msgtype", "m.text"),
   ("body", "<body>"),
   ("format", "org.matrix.custom.html"),
   ("formatted_body", "<body>" ++ emitVal text phids ++ "</body>")]

/-- The accumulator of the form-field scan at the top of `postStory`. -/
structure ScanState where
  isStory : Bool
  phids : List String
  story : List String
  isTagged : Bool
deriving DecidableEq, Repr

/-- Processing of one form field `(k, v)` in `postStory`'s scan loop:
empty value lists are skipped, `storyText` values accumulate into the
story, and every other value is either classified as a PHID or checked
for the tagged-story marker. -/
def scanKV (resolving : List String) (st : ScanState) (kv : String × List String) : ScanState :=
  if kv.2.isEmpty then st
  else if kv.1 = "storyText" then
    { st with isStory := true, story := st.story ++ kv.2 }
  else
    kv.2.foldl (fun st e =>
      if isPHID e resolving then { st with phids := st.phids ++ [e] }
      else if kv.1 = "storyType" ∧ e = "PhabricatorFeedTaggedStory" then
        { st with isTagged := true }
      else st) st

/-- The whole scan over `r.Form` (modelled as an association list in the
map's iteration order). -/
def scanForm (form : List (String × List String)) (resolving : List String) : ScanState :=
  form.foldl (scanKV resolving) ⟨false, [], [], false⟩

/-- The mutable locals of the tagged-story loop in `postStory`. -/
structure TaggedState where
  isValid : Bool
  toRoom : String
  storyText : String
  addedStory : String
deriving DecidableEq, Repr

/-- One iteration of the tagged-story loop: `tag` is skipped, `title`
rewrites the body and re-derives the room from the tag value, every other
key appends a `" (key -> value)"` suffix. -/
def taggedStep (conf : Config) (tagged : String) (st : TaggedState) (kv : String × String) : TaggedState :=
  if kv.1 = "tag" then st
  else if kv.1 = "title" then
    { st with isValid := true, toRoom := getMatrixPost conf tagged, storyText := kv.2 }
  else
    { st with addedStory := st.addedStory ++ " (" ++ kv.1 ++ " -> " ++ kv.2 ++ ")" }

/-- The `" (key -> value)"` suffix appended for one non-`tag`, non-`title`
pair. -/
def suffixOf (kv : String × String) : String :=
  " (" ++ kv.1 ++ " -> " ++ kv.2 ++ ")"

/-- The pairs of a tagged-story payload that are neither the `tag` nor the
`title` key — the ones rendered as `" (key -> value)"` suffixes. -/
def isExtraKV (kv : String × String) : Bool :=
  !(kv.1 == "tag") && !(kv.1 == "title")

/-- The tagged-story branch of `postStory` after the payload has been
unmarshalled into `output`: requires a `tag` key, folds the loop above
over the map, then requires that some `title` key set `isValid`; yields
`(toRoom, body)` on success, `none` when the event is discarded. -/
def taggedOutcome (conf : Config) (storyText : String)
    (output : List (String × String)) : Option (String × String) :=
  match output.lookup "tag" with
  | none => none
  | some tagged =>
    let st := output.foldl (taggedStep conf tagged) ⟨false, conf.room, storyText, ""⟩
    if st.isValid then some (st.toRoom, st.storyText ++ st.addedStory) else none

/-- The arguments of the one `execute` call a non-discarded event produces. -/
structure EmitCall where
  text : String
  url : String
  phids : List String
deriving DecidableEq, Repr

/-- The identifier-handling block in the middle of `postStory`: tagged
stories drop their accumulated PHIDs (`phids = phids[:0]`), non-tagged
stories with at least one PHID invoke the resolver. -/
structure RouteState where
  phids : List String
  cache : Cache
  calls : List (List String)
  invoked : Bool

/-- `if len(phids) > 0 { if isTagged { phids = phids[:0] } else { phids =
resolvePHIDs(...) } }`. -/
def routePhase (scan : ScanState) (conf : Config) (cache : Cache)
    (remote : List String → Option JSON) : RouteState :=
  if scan.phids.isEmpty then ⟨scan.phids, cache, [], false⟩
  else if scan.isTagged then ⟨[], cache, [], false⟩
  else
    let r := resolvePHIDs scan.phids conf.lookups cache remote
    ⟨r.results, r.cache, r.calls, true⟩

/-- The body/room derivation of `postStory` once the identifiers are
settled: tagged stories parse the joined story text as a JSON object of
strings (`parse` models `json.Unmarshal` of the text) and go through
`taggedOutcome`; non-tagged stories keep the joined text and the
process-default room. -/
def storyPhase (scan : ScanState) (conf : Config) (parse : String → Option JSON)
    (phids : List String) : Option EmitCall :=
  let storyText := joinStrs scan.story
  if scan.isTagged then
    match (parse storyText).bind asStringMap with
    | none => none
    | some output =>
      match taggedOutcome conf storyText output with
      | none => none
      | some rt => some ⟨rt.2, rt.1, phids⟩
  else some ⟨storyText, conf.room, phids⟩

/-- Everything observable about one `postStory` call: the `execute` call it
makes (`none` when the event is discarded), the cache afterwards, the
remote resolution calls issued, and whether `resolvePHIDs` ran. -/
structure PostResult where
  emitted : Option EmitCall
  cache : Cache
  calls : List (List String)
  resolverInvoked : Bool

/-- `postStory(w, r, conf)` over one inbound event. -/
def postStory (form : List (String × List String)) (conf : Config) (cache : Cache)
    (remote : List String → Option JSON) (parse : String → Option JSON) : PostResult :=
  let scan := scanForm form conf.resolving
  if scan.isStory then
    let rp := routePhase scan conf cache remote
    ⟨storyPhase scan conf parse rp.phids, rp.cache, rp.calls, rp.invoked⟩
  else ⟨none, cache, [], false⟩

/-- `digJSONOut(obj, ..., dig)`: repeatedly `getJSON` the current blob and
descend into the next key of `dig`; a missing key hands `nil` to the next
`getJSON`, which fails. -/
def digJSONOut (obj : Option JSON) (dig : List String) : Option (List (String × JSON)) :=
  match dig with
  | [] => obj.bind getJSONFields
  | d :: rest =>
    match obj.bind getJSONFields with
    | none => none
    | some res => digJSONOut (res.lookup d) rest

/-- `initLookups(conf, phid)`: unwrap the `paste.search` reply down
`result.data[0].attachments.content.content`, parse that inner string as
a JSON object of strings, and return it; every deviation leaves the
mapping empty.  `r` is the reply (`none` when the body is unparsable) and
`parse` models `json.Unmarshal` of the inner string. -/
def initLookups (r : Option JSON) (parse : String → Option JSON) : List (String × String) :=
  match r.bind getJSONFields with
  | none => []
  | some output =>
    match (output.lookup "result").bind getJSONFields with
    | none => []
    | some res =>
      match (res.lookup "data").bind asArr with
      | none => []
      | some content =>
        match content with
        | [doc] =>
          match digJSONOut (some doc) ["attachments", "content"] with
          | none => []
          | some res2 =>
            match (res2.lookup "content").bind asString with
            | none => []
            | some data =>
              match (parse data).bind asStringMap with
              | none => []
              | some lookups => lookups
        | _ => []

/-- The good shape of a `paste.search` reply, following the specification:
exactly one matching document, the nested path
`result.data[0].attachments.content.content` present, and the inner
string parsing as a JSON object (of strings). -/
def WellShapedAliasResponse (r : Option JSON) (parse : String → Option JSON) : Prop :=
  ∃ output res content doc res2 data m,
    r.bind getJSONFields = some output ∧
    (output.lookup "result").bind getJSONFields = some res ∧
    (res.lookup "data").bind asArr = some content ∧
    content = [doc] ∧
    digJSONOut (some doc) ["attachments", "content"] = some res2 ∧
    (res2.lookup "content").bind asString = some data ∧
    (parse data).bind asStringMap = some m

/-- The interleaving model for concurrent `resolvePHIDs` handlers.  A
handler is split at the real program's atomicity boundary: the cache-miss
scan (`ready → pending`, a read of the shared cache) and the remote call
plus store plus final pass (`pending → finished`).  Each modelled step is
at least as coarse as the Go code's steps, so every duplicate remote call
exhibited under this model is realizable in the program. -/
inductive HState where
  | ready (resolving : List String)
  | pending (resolving : List String) (batch : List String)
  | finished (results : List String)

/-- The state shared by all handlers: the `sync.Map` cache and the log of
batched remote calls issued so far. -/
structure SysState where
  cache : Cache
  callLog : List (List String)

/-- One atomic step of one handler against the shared state. -/
def stepHandler (lookups : List (String × String)) (remote : List String → Option JSON)
    (h : HState) (s : SysState) : HState × SysState :=
  match h with
  | .ready resolving => (.pending resolving (misses resolving s.cache), s)
  | .pending resolving batch =>
    if batch.isEmpty then (.finished (finalPass resolving s.cache), s)
    else
      let c2 := processResponse (responseObjects (remote batch)) lookups s.cache
      (.finished (finalPass resolving c2), ⟨c2, s.callLog ++ [batch]⟩)
  | .finished results => (.finished results, s)

/-- Run a schedule: at each tick the named handler takes its next atomic
step (out-of-range indices are skipped). -/
def runSchedule (lookups : List (String × String)) (remote : List String → Option JSON) :
    List Nat → List HState → SysState → List HState × SysState
  | [], hs, s => (hs, s)
  | i :: rest, hs, s =>
    match hs.get? i with
    | none => runSchedule lookups remote rest hs s
    | some h =>
      let p := stepHandler lookups remote h s
      runSchedule lookups remote rest (hs.set i p.1) p.2

/-- A `phid.query` endpoint that answers every batch with one well-formed
object per requested identifier (phid echoed, name `"n"`, uri `"u"`). -/
def echoRemote : List String → Option JSON :=
  fun batch => some (.obj [("result",
    .obj (batch.map fun p => (p, .obj [("phid", .str p), ("name", .str "n"), ("uri", .str "u")])))])

/-- `fragsAt c e`: the fragments the final pass appends for `e` (none when
the identifier is not cached). -/
def fragsAt (c : Cache) (e : String) : List String :=
  match cacheLoad c e with
  | some val => val
  | none => []

/-! ### Concrete data used by example/witness theorems -/

/-- A concrete configuration: default room `"DEFROOM"` (standing for the
URL `main` derives from `SYNAPSE_FEED_ROOM`), resolvable type prefix
`TASK`, empty alias table. -/
def exConf : Config :=
  ⟨"DEFROOM", ["TASK"], [], "http://m", "tok"⟩

/-- A parse oracle for the tagged payload `P` of the C1 example: `P`
decodes to the JSON object with `tag = room1`, `title = Hi`,
`extra = 1`. -/
def exParse : String → Option JSON := fun s =>
  if s = "P" then
    some (.obj [("tag", .str "room1"), ("title", .str "Hi"), ("extra", .str "1")])
  else none

/-- The C1 example event: a tagged story whose payload is `P`, with a
sibling form field carrying a resolvable identifier. -/
def exForm : List (String × List String) :=
  [("storyText", ["P"]),
   ("storyType", ["PhabricatorFeedTaggedStory"]),
   ("objectPHID", ["PHID-TASK-1"])]

/-- The C1 example payload, as the association list `asStringMap` yields. -/
def exOutput : List (String × String) :=
  [("tag", "room1"), ("title", "Hi"), ("extra", "1")]

/-- The C5 example event: a plain story with two `storyText` values and no
resolvable fields. -/
def exForm5 : List (String × List String) :=
  [("storyText", ["hello ", " world"])]

/-- A parse oracle for the C6 witness: every payload decodes to a JSON
object that has a `tag` key but no `title` key. -/
def exParse6 : String → Option JSON := fun _ =>
  some (.obj [("tag", .str "r"), ("x", .str "y")])

/-- The C6 witness event: a tagged story whose payload lacks `title`. -/
def exForm6 : List (String × List String) :=
  [("storyText", ["T"]), ("storyType", ["PhabricatorFeedTaggedStory"])]

/-- The two identifiers of the spec's sorting example (`B` and `A`). -/
def exB : String := "PHID-USER-b"

/-- See `exB`. -/
def exA : String := "PHID-USER-a"

/-- The response object resolving `B` to name `"bee"`. -/
def exObjB : JSON :=
  .obj [("phid", .str exB), ("name", .str "bee"), ("uri", .str "u")]

/-- The response object resolving `A` to name `"ay"`. -/
def exObjA : JSON :=
  .obj [("phid", .str exA), ("name", .str "ay"), ("uri", .str "u")]

/-- The `phid.query` reply carrying `B → bee, A → ay` in that order. -/
def exResp1 : Option JSON :=
  some (.obj [("result", .obj [("B", exObjB), ("A", exObjA)])])

/-- The same reply with the two result objects in the opposite order. -/
def exResp2 : Option JSON :=
  some (.obj [("result", .obj [("A", exObjA), ("B", exObjB)])])

/-- The expected resolver output of the sorting example: alphabetical by
fragment text. -/
def exSorted : List String :=
  ["<a href='u'>ay</a>", "<a href='u'>bee</a>"]

/-! ### Helper lemmas -/

theorem cacheLoad_store (c : Cache) (k x : String) (v : List String) :
    cacheLoad (cacheStore c k v) x = if x = k then some v else cacheLoad c x := by
  unfold cacheLoad cacheStore
  rw [List.lookup_cons]
  by_cases h : x = k
  · simp [h]
  · have hb : (x == k) = false := beq_eq_false_iff_ne.mpr h
    simp [hb, h]

theorem isSome_processResponse_of_isSome (objs : List JSON) (lookups : List (String × String))
    (c : Cache) (x : String) (h : (cacheLoad c x).isSome = true) :
    (cacheLoad (processResponse objs lookups c) x).isSome = true := by
  induction objs generalizing c with
  | nil => exact h
  | cons v objs ih =>
    show (cacheLoad (processResponse objs lookups (storeStep lookups c v)) x).isSome = true
    apply ih
    unfold storeStep
    cases hm : asStringMap v with
    | none => exact h
    | some m =>
      rw [cacheLoad_store]
      split
      · rfl
      · exact h

theorem isSome_processResponse_of_mem (objs : List JSON) (lookups : List (String × String))
    (c : Cache) (x : String) (h : x ∈ storeKeys objs) :
    (cacheLoad (processResponse objs lookups c) x).isSome = true := by
  induction objs generalizing c with
  | nil => exact absurd h (List.not_mem_nil x)
  | cons v objs ih =>
    show (cacheLoad (processResponse objs lookups (storeStep lookups c v)) x).isSome = true
    rw [storeKeys, List.filterMap_cons] at h
    cases hk : storeKeyOf v with
    | none =>
      rw [hk] at h
      exact ih _ h
    | some k =>
      rw [hk] at h
      obtain ⟨m, hm, hmk⟩ := Option.map_eq_some'.mp hk
      rcases List.mem_cons.mp h with hxk | hx
      · apply isSome_processResponse_of_isSome
        unfold storeStep
        rw [hm, cacheLoad_store, hxk, hmk]
        simp
      · exact ih _ hx

theorem load_processResponse_of_not_mem (objs : List JSON) (lookups : List (String × String))
    (c : Cache) (x : String) (h : x ∉ storeKeys objs) :
    cacheLoad (processResponse objs lookups c) x = cacheLoad c x := by
  induction objs generalizing c with
  | nil => rfl
  | cons v objs ih =>
    rw [storeKeys, List.filterMap_cons] at h
    show cacheLoad (processResponse objs lookups (storeStep lookups c v)) x = cacheLoad c x
    cases hk : storeKeyOf v with
    | none =>
      rw [hk] at h
      have hmn : asStringMap v = none := by
        have := Option.map_eq_none'.mp hk
        exact this
      rw [show storeStep lookups c v = c by unfold storeStep; rw [hmn]]
      exact ih c h
    | some k =>
      rw [hk] at h
      obtain ⟨m, hm, hmk⟩ := Option.map_eq_some'.mp hk
      have hxk : x ≠ k := fun he => h (List.mem_cons.mpr (Or.inl he))
      have hx : x ∉ storeKeys objs := fun he => h (List.mem_cons.mpr (Or.inr he))
      rw [ih _ hx]
      unfold storeStep
      rw [hm, cacheLoad_store]
      simp [hxk, hmk]

theorem leChars_total (x y : List Char) : leChars x y = true ∨ leChars y x = true := by
  induction x generalizing y with
  | nil => exact Or.inl rfl
  | cons a as ih =>
    cases y with
    | nil => exact Or.inr rfl
    | cons b bs =>
      by_cases h1 : a < b
      · exact Or.inl (by simp [leChars, h1])
      · by_cases h2 : b < a
        · exact Or.inr (by simp [leChars, h2])
        · rcases ih bs with h | h
          · exact Or.inl (by simp [leChars, h1, h2, h])
          · exact Or.inr (by simp [leChars, h1, h2, h])

theorem leChars_trans (x y z : List Char) (h1 : leChars x y = true)
    (h2 : leChars y z = true) : leChars x z = true := by
  induction x generalizing y z with
  | nil => rfl
  | cons a as ih =>
    cases y with
    | nil => simp [leChars] at h1
    | cons b bs =>
      cases z with
      | nil => simp [leChars] at h2
      | cons c cs =>
        simp only [leChars] at h1 h2 ⊢
        by_cases hab : a < b
        · by_cases hbc : b < c
          · simp [lt_trans hab hbc]
          · by_cases hcb : c < b
            · simp [hbc, hcb] at h2
            · have hbceq : b = c := le_antisymm (not_lt.mp hcb) (not_lt.mp hbc)
              subst hbceq
              simp [hab]
        · by_cases hba : b < a
          · simp [hab, hba] at h1
          · have habeq : a = b := le_antisymm (not_lt.mp hba) (not_lt.mp hab)
            subst habeq
            by_cases hac : a < c
            · simp [hac]
            · by_cases hca : c < a
              · simp [hac, hca] at h2
              · simp [hab, hba] at h1
                simp [hac, hca] at h2 ⊢
                exact ih bs cs h1 h2

theorem leChars_antisymm (x y : List Char) (h1 : leChars x y = true)
    (h2 : leChars y x = true) : x = y := by
  induction x generalizing y with
  | nil =>
    cases y with
    | nil => rfl
    | cons b bs => simp [leChars] at h2
  | cons a as ih =>
    cases y with
    | nil => simp [leChars] at h1
    | cons b bs =>
      simp only [leChars] at h1 h2
      by_cases hab : a < b
      · simp [hab, lt_asymm hab] at h2
      · by_cases hba : b < a
        · simp [hab, hba] at h1
        · have habeq : a = b := le_antisymm (not_lt.mp hba) (not_lt.mp hab)
          subst habeq
          simp [hab] at h1 h2
          rw [ih bs h1 h2]

theorem strLe_total (a b : String) : strLe a b = true ∨ strLe b a = true :=
  leChars_total a.data b.data

theorem strLe_trans (a b c : String) (h1 : strLe a b = true) (h2 : strLe b c = true) :
    strLe a c = true :=
  leChars_trans a.data b.data c.data h1 h2

theorem strLe_antisymm (a b : String) (h1 : strLe a b = true) (h2 : strLe b a = true) :
    a = b :=
  String.ext (leChars_antisymm a.data b.data h1 h2)

instance : IsAntisymm String (fun a b => strLe a b = true) :=
  ⟨fun a b h1 h2 => strLe_antisymm a b h1 h2⟩

theorem mem_insertSorted (c a : String) (l : List String) :
    c ∈ insertSorted a l ↔ c = a ∨ c ∈ l := by
  induction l with
  | nil => simp [insertSorted]
  | cons b bs ih =>
    unfold insertSorted
    by_cases h : strLe a b = true
    · simp [h]
    · simp [h, ih]
      tauto

theorem sorted_insertSorted (a : String) (l : List String)
    (h : List.Sorted (fun x y => strLe x y = true) l) :
    List.Sorted (fun x y => strLe x y = true) (insertSorted a l) := by
  induction l with
  | nil => exact List.sorted_singleton a
  | cons b bs ih =>
    rw [List.sorted_cons] at h
    obtain ⟨hb, hbs⟩ := h
    unfold insertSorted
    by_cases hab : strLe a b = true
    · rw [if_pos hab]
      rw [List.sorted_cons]
      refine ⟨?_, List.sorted_cons.mpr ⟨hb, hbs⟩⟩
      intro c hc
      rcases List.mem_cons.mp hc with rfl | hcbs
      · exact hab
      · exact strLe_trans a b c hab (hb c hcbs)
    · rw [if_neg hab]
      rw [List.sorted_cons]
      refine ⟨?_, ih hbs⟩
      intro c hc
      rcases (mem_insertSorted c a bs).mp hc with hca | hcbs
      · rcases strLe_total a b with h | h
        · exact absurd h hab
        · rw [hca]
          exact h
      · exact hb c hcbs

theorem sorted_sortStrings (l : List String) :
    List.Sorted (fun x y => strLe x y = true) (sortStrings l) := by
  induction l with
  | nil => exact List.sorted_nil
  | cons a rest ih => exact sorted_insertSorted a (sortStrings rest) ih

theorem perm_insertSorted (a : String) (l : List String) :
    (insertSorted a l).Perm (a :: l) := by
  induction l with
  | nil => exact List.Perm.refl _
  | cons b bs ih =>
    unfold insertSorted
    by_cases h : strLe a b = true
    · rw [if_pos h]
    · rw [if_neg h]
      exact (ih.cons b).trans (List.Perm.swap a b bs)

theorem perm_sortStrings (l : List String) : (sortStrings l).Perm l := by
  induction l with
  | nil => exact List.Perm.refl _
  | cons a rest ih =>
    exact (perm_insertSorted a (sortStrings rest)).trans (ih.cons a)

theorem sortStrings_eq_of_perm (l l' : List String) (h : l.Perm l') :
    sortStrings l = sortStrings l' :=
  List.eq_of_perm_of_sorted
    ((perm_sortStrings l).trans (h.trans (perm_sortStrings l').symm))
    (sorted_sortStrings l) (sorted_sortStrings l')

theorem foldl_collect (c : Cache) (l : List String) (acc : List String) :
    l.foldl (fun acc e => match cacheLoad c e with | some val => acc ++ val | none => acc) acc
      = acc ++ (l.map (fragsAt c)).flatten := by
  induction l generalizing acc with
  | nil => simp
  | cons e l ih =>
    rw [List.foldl_cons, ih, List.map_cons, List.flatten_cons]
    cases h : cacheLoad c e with
    | none => simp [fragsAt, h]
    | some val => simp [fragsAt, h]

theorem finalPass_eq (resolving : List String) (c : Cache) :
    finalPass resolving c =
      (if ((resolving.map (fragsAt c)).flatten).isEmpty then (resolving.map (fragsAt c)).flatten
       else sortStrings ((resolving.map (fragsAt c)).flatten)) := by
  unfold finalPass
  rw [foldl_collect]
  simp

theorem sorted_finalPass (resolving : List String) (c : Cache) :
    List.Sorted (fun x y => strLe x y = true) (finalPass resolving c) := by
  rw [finalPass_eq]
  split
  · next h =>
    rw [List.isEmpty_iff.mp h]
    exact List.sorted_nil
  · exact sorted_sortStrings _

theorem finalPass_perm (resolving resolving' : List String) (c : Cache)
    (h : resolving.Perm resolving') :
    finalPass resolving c = finalPass resolving' c := by
  have hp : ((resolving.map (fragsAt c)).flatten).Perm ((resolving'.map (fragsAt c)).flatten) :=
    (h.map (fragsAt c)).flatten
  rw [finalPass_eq, finalPass_eq]
  by_cases he : ((resolving.map (fragsAt c)).flatten).isEmpty = true
  · have h1 : (resolving.map (fragsAt c)).flatten = [] := List.isEmpty_iff.mp he
    have h2 : (resolving'.map (fragsAt c)).flatten = [] := List.Perm.eq_nil (h1 ▸ hp).symm
    simp [h1, h2]
  · have h2 : ¬ ((resolving'.map (fragsAt c)).flatten).isEmpty = true := by
      intro hcon
      exact he (List.isEmpty_iff.mpr (List.Perm.eq_nil (hp.trans
        (List.isEmpty_iff.mp hcon ▸ List.Perm.refl _))))
    rw [if_neg he, if_neg h2]
    exact sortStrings_eq_of_perm _ _ hp

theorem resolvePHIDs_of_isEmpty (resolving : List String) (lookups : List (String × String))
    (cache : Cache) (remote : List String → Option JSON)
    (h : (misses resolving cache).isEmpty = true) :
    resolvePHIDs resolving lookups cache remote = ⟨finalPass resolving cache, cache, []⟩ := by
  unfold resolvePHIDs
  rw [if_pos h]

theorem resolvePHIDs_of_not_isEmpty (resolving : List String) (lookups : List (String × String))
    (cache : Cache) (remote : List String → Option JSON)
    (h : (misses resolving cache).isEmpty = false) :
    resolvePHIDs resolving lookups cache remote =
      ⟨finalPass resolving (processResponse (responseObjects (remote (misses resolving cache))) lookups cache),
       processResponse (responseObjects (remote (misses resolving cache))) lookups cache,
       [misses resolving cache]⟩ := by
  unfold resolvePHIDs
  rw [if_neg (by simp [h])]

theorem taggedFold_no_title (conf : Config) (tagged : String) (l : List (String × String))
    (st : TaggedState) (h : "title" ∉ l.map Prod.fst) :
    l.foldl (taggedStep conf tagged) st =
      ⟨st.isValid, st.toRoom, st.storyText,
        st.addedStory ++ joinStrs ((l.filter (fun kv => !(kv.1 == "tag"))).map suffixOf)⟩ := by
  induction l generalizing st with
  | nil => simp [joinStrs, String.append_empty]
  | cons kv l ih =>
    obtain ⟨k, v⟩ := kv
    rw [List.map_cons] at h
    have hk : ¬ k = "title" := fun he => h (by rw [he]; exact List.mem_cons_self _ _)
    have ht : "title" ∉ l.map Prod.fst := fun he => h (List.mem_cons.mpr (Or.inr he))
    rw [List.foldl_cons, List.filter_cons]
    by_cases hkt : k = "tag"
    · rw [show taggedStep conf tagged st (k, v) = st by unfold taggedStep; rw [if_pos hkt]]
      rw [ih st ht]
      simp [hkt]
    · rw [show taggedStep conf tagged st (k, v) =
          ⟨st.isValid, st.toRoom, st.storyText,
            st.addedStory ++ " (" ++ k ++ " -> " ++ v ++ ")"⟩ by
        unfold taggedStep
        rw [if_neg hkt, if_neg hk]]
      rw [ih _ ht]
      simp [hkt, joinStrs, suffixOf, String.append_assoc]

theorem taggedFold_title (conf : Config) (tagged : String) (l : List (String × String))
    (st : TaggedState) (ti : String) (hnd : (l.map Prod.fst).Nodup)
    (h : l.lookup "title" = some ti) :
    l.foldl (taggedStep conf tagged) st =
      ⟨true, getMatrixPost conf tagged, ti,
        st.addedStory ++ joinStrs ((l.filter isExtraKV).map suffixOf)⟩ := by
  induction l generalizing st with
  | nil => simp [List.lookup] at h
  | cons kv l ih =>
    obtain ⟨k, v⟩ := kv
    rw [List.map_cons, List.nodup_cons] at hnd
    obtain ⟨hknot, hndl⟩ := hnd
    rw [List.foldl_cons, List.filter_cons]
    by_cases hkt : k = "title"
    · subst hkt
      have hv : v = ti := by
        rw [List.lookup_cons] at h
        simpa using h
      subst hv
      have hnotitle : "title" ∉ l.map Prod.fst := hknot
      rw [show taggedStep conf tagged st ("title", v) =
          ⟨true, getMatrixPost conf tagged, v, st.addedStory⟩ by simp [taggedStep]]
      rw [taggedFold_no_title conf tagged l _ hnotitle]
      have hfc : l.filter (fun kv => !(kv.1 == "tag")) = l.filter isExtraKV := by
        apply List.filter_congr
        intro kv hkv
        have : ¬ kv.1 = "title" := by
          intro he
          exact hnotitle (he ▸ List.mem_map_of_mem Prod.fst hkv)
        simp [isExtraKV, this]
      rw [hfc]
      simp [isExtraKV]
    · by_cases hktag : k = "tag"
      · have hstep : taggedStep conf tagged st (k, v) = st := by
          unfold taggedStep
          rw [if_pos hktag]
        have hl : l.lookup "title" = some ti := by
          rw [List.lookup_cons] at h
          have : ("title" == k) = false := beq_eq_false_iff_ne.mpr (fun he => hkt he.symm)
          rw [this] at h
          exact h
        rw [hstep, ih st hndl hl]
        simp [isExtraKV, hktag]
      · have hstep : taggedStep conf tagged st (k, v) =
            ⟨st.isValid, st.toRoom, st.storyText,
              st.addedStory ++ " (" ++ k ++ " -> " ++ v ++ ")"⟩ := by
          unfold taggedStep
          rw [if_neg hktag, if_neg hkt]
        have hl : l.lookup "title" = some ti := by
          rw [List.lookup_cons] at h
          have : ("title" == k) = false := beq_eq_false_iff_ne.mpr (fun he => hkt he.symm)
          rw [this] at h
          exact h
        rw [hstep, ih _ hndl hl]
        have : isExtraKV (k, v) = true := by
          simp [isExtraKV, hkt, hktag]
        rw [if_pos this]
        simp [joinStrs, suffixOf, String.append_assoc]

theorem any_eq_of_perm (l l' : List String) (p : String → Bool) (h : l.Perm l') :
    l.any p = l'.any p := by
  cases ha : l.any p with
  | true =>
    obtain ⟨x, hx, hpx⟩ := List.any_eq_true.mp ha
    exact (List.any_eq_true.mpr ⟨x, h.mem_iff.mp hx, hpx⟩).symm
  | false =>
    cases hb : l'.any p with
    | true =>
      obtain ⟨x, hx, hpx⟩ := List.any_eq_true.mp hb
      have : l.any p = true := List.any_eq_true.mpr ⟨x, h.mem_iff.mpr hx, hpx⟩
      rw [ha] at this
      exact this
    | false => rfl

theorem postStory_of_isStory (form : List (String × List String)) (conf : Config)
    (cache : Cache) (remote : List String → Option JSON) (parse : String → Option JSON)
    (hs : (scanForm form conf.resolving).isStory = true) :
    postStory form conf cache remote parse =
      ⟨storyPhase (scanForm form conf.resolving) conf parse
          (routePhase (scanForm form conf.resolving) conf cache remote).phids,
        (routePhase (scanForm form conf.resolving) conf cache remote).cache,
        (routePhase (scanForm form conf.resolving) conf cache remote).calls,
        (routePhase (scanForm form conf.resolving) conf cache remote).invoked⟩ := by
  unfold postStory
  rw [if_pos hs]

theorem routePhase_tagged (scan : ScanState) (conf : Config) (cache : Cache)
    (remote : List String → Option JSON) (ht : scan.isTagged = true) :
    routePhase scan conf cache remote = ⟨[], cache, [], false⟩ := by
  unfold routePhase
  by_cases hp : scan.phids.isEmpty = true
  · rw [if_pos hp, List.isEmpty_iff.mp hp]
  · rw [if_neg hp, if_pos ht]

theorem routePhase_of_no_phids (scan : ScanState) (conf : Config) (cache : Cache)
    (remote : List String → Option JSON) (hp : scan.phids = []) :
    routePhase scan conf cache remote = ⟨[], cache, [], false⟩ := by
  unfold routePhase
  rw [if_pos (by rw [hp]; rfl), hp]

theorem routePhase_invoked_iff (scan : ScanState) (conf : Config) (cache : Cache)
    (remote : List String → Option JSON) (ht : scan.isTagged = false) :
    ((routePhase scan conf cache remote).invoked = true ↔ scan.phids ≠ []) := by
  unfold routePhase
  by_cases hp : scan.phids.isEmpty = true
  · rw [if_pos hp]
    simp [List.isEmpty_iff.mp hp]
  · rw [if_neg hp, if_neg (by simp [ht])]
    simp
    intro he
    exact hp (by rw [he]; rfl)

theorem storyPhase_not_tagged (scan : ScanState) (conf : Config)
    (parse : String → Option JSON) (phids : List String) (ht : scan.isTagged = false) :
    storyPhase scan conf parse phids = some ⟨joinStrs scan.story, conf.room, phids⟩ := by
  unfold storyPhase
  rw [if_neg (by simp [ht])]

/-! ### Claim theorems -/

/-- C10: for every emitted message, the outbound payload's plain-text
`body` field is the constant literal `"<body>"` (independent of the
event's text, destination, and references), and the actual content —
the escaped text plus the optional references footer, `emitVal` — appears
only in `formatted_body`, wrapped as `"<body>" ++ content ++ "</body>"`. -/
theorem emitter_body_constant (text url : String) (phids : List String) :
    (execute text url phids).lookup "body" = some "<body>" ∧
    (execute text url phids).lookup "formatted_body" =
      some ("<body>" ++ emitVal text phids ++ "</body>") := by
  constructor
  · rfl
  · rfl

/-- C4: `isPHID` returns true iff the token begins with `"PHID-"` and, for
at least one configured prefix `t`, with `"PHID-" ++ t ++ "-"`; the result
is invariant under permutation of the allow-list. -/
theorem classifier_characterization (v : String) (l l' : List String) (hperm : l.Perm l') :
    (isPHID v l = true ↔
      (strStartsWith v "PHID-" = true ∧
        ∃ t ∈ l, strStartsWith v ("PHID-" ++ t ++ "-") = true)) ∧
    isPHID v l = isPHID v l' := by
  constructor
  · unfold isPHID
    by_cases h : strStartsWith v "PHID-" = true
    · rw [if_pos h]
      simp [h, List.any_eq_true]
    · rw [if_neg h]
      simp [h]
  · unfold isPHID
    by_cases h : strStartsWith v "PHID-" = true
    · rw [if_pos h, if_pos h]
      exact any_eq_of_perm l l' _ hperm
    · rw [if_neg h, if_neg h]

/-- C4 witness: concrete classifier runs with a permuted allow-list. -/
theorem classifier_characterization_witness :
    ([ "TASK", "USER" ] : List String).Perm ["USER", "TASK"] ∧
    ((isPHID "PHID-TASK-1" ["TASK", "USER"] = true ↔
      (strStartsWith "PHID-TASK-1" "PHID-" = true ∧
        ∃ t ∈ ["TASK", "USER"], strStartsWith "PHID-TASK-1" ("PHID-" ++ t ++ "-") = true)) ∧
     isPHID "PHID-TASK-1" ["TASK", "USER"] = isPHID "PHID-TASK-1" ["USER", "TASK"]) :=
  ⟨by decide, classifier_characterization "PHID-TASK-1" ["TASK", "USER"] ["USER", "TASK"] (by decide)⟩

/-- C6: a tagged story whose joined `storyText` does not unmarshal into a
string map, or lacks a `tag` key, or lacks a `title` key, is discarded:
no `execute` call is made. -/
theorem tagged_story_discarded (form : List (String × List String)) (conf : Config)
    (cache : Cache) (remote : List String → Option JSON) (parse : String → Option JSON)
    (hs : (scanForm form conf.resolving).isStory = true)
    (ht : (scanForm form conf.resolving).isTagged = true)
    (hfail :
      (parse (joinStrs (scanForm form conf.resolving).story)).bind asStringMap = none ∨
      (∃ output,
        (parse (joinStrs (scanForm form conf.resolving).story)).bind asStringMap = some output ∧
        output.lookup "tag" = none) ∨
      (∃ output,
        (parse (joinStrs (scanForm form conf.resolving).story)).bind asStringMap = some output ∧
        "title" ∉ output.map Prod.fst)) :
    (postStory form conf cache remote parse).emitted = none := by
  rw [postStory_of_isStory form conf cache remote parse hs]
  show storyPhase _ _ _ _ = none
  unfold storyPhase
  rw [if_pos ht]
  rcases hfail with h | ⟨output, ho, htag⟩ | ⟨output, ho, htit⟩
  · rw [h]
  · simp only [ho]
    unfold taggedOutcome
    rw [htag]
  · simp only [ho]
    unfold taggedOutcome
    cases htg : output.lookup "tag" with
    | none =>
      simp only [htg]
    | some tagged =>
      simp only [htg]
      rw [taggedFold_no_title conf tagged output _ htit]
      rfl

/-- C6 witness: a concrete tagged story whose payload has no `title` key
is discarded. -/
theorem tagged_story_discarded_witness :
    (scanForm exForm6 exConf.resolving).isStory = true ∧
    (scanForm exForm6 exConf.resolving).isTagged = true ∧
    (∃ output,
      (exParse6 (joinStrs (scanForm exForm6 exConf.resolving).story)).bind asStringMap = some output ∧
      "title" ∉ output.map Prod.fst) ∧
    (postStory exForm6 exConf [] (fun _ => none) exParse6).emitted = none := by
  refine ⟨by decide, by decide, ⟨[("tag", "r"), ("x", "y")], by decide, by decide⟩, ?_⟩
  exact tagged_story_discarded exForm6 exConf [] (fun _ => none) exParse6 (by decide) (by decide)
    (Or.inr (Or.inr ⟨[("tag", "r"), ("x", "y")], by decide, by decide⟩))

/-- C1: a tagged story whose payload decodes to a string map with a `tag`
and a `title` key is routed to the room named by the tag value (via
`getMatrixPost`, not to the process-default room), its body is the title
value followed by one `" (key -> value)"` suffix per remaining key, and
its reference-fragment list is empty regardless of identifiers
accumulated from sibling form fields. -/
theorem tagged_story_route (form : List (String × List String)) (conf : Config)
    (cache : Cache) (remote : List String → Option JSON) (parse : String → Option JSON)
    (output : List (String × String)) (tg ti : String)
    (hs : (scanForm form conf.resolving).isStory = true)
    (ht : (scanForm form conf.resolving).isTagged = true)
    (hp : (parse (joinStrs (scanForm form conf.resolving).story)).bind asStringMap = some output)
    (hnd : (output.map Prod.fst).Nodup)
    (htag : output.lookup "tag" = some tg)
    (htit : output.lookup "title" = some ti) :
    (postStory form conf cache remote parse).emitted =
      some ⟨ti ++ joinStrs ((output.filter isExtraKV).map suffixOf),
        getMatrixPost conf tg, []⟩ := by
  rw [postStory_of_isStory form conf cache remote parse hs]
  show storyPhase _ _ _ _ = _
  rw [routePhase_tagged _ _ _ _ ht]
  unfold storyPhase
  rw [if_pos ht]
  simp only [hp]
  unfold taggedOutcome
  simp only [htag]
  rw [taggedFold_title conf tg output _ ti hnd htit]
  simp [String.empty_append]

/-- C1 witness: the payload `{tag: room1, title: Hi, extra: 1}` is routed
to room `room1` with body `"Hi (extra -> 1)"` and no reference fragments,
although a sibling field carried the resolvable `PHID-TASK-1`. -/
theorem tagged_story_route_witness :
    (scanForm exForm exConf.resolving).isStory = true ∧
    (scanForm exForm exConf.resolving).isTagged = true ∧
    (exParse (joinStrs (scanForm exForm exConf.resolving).story)).bind asStringMap = some exOutput ∧
    (postStory exForm exConf [] (fun _ => none) exParse).emitted =
      some ⟨"Hi (extra -> 1)", getMatrixPost exConf "room1", []⟩ := by
  refine ⟨by decide, by decide, by decide, ?_⟩
  have h := tagged_story_route exForm exConf [] (fun _ => none) exParse exOutput
    "room1" "Hi" (by decide) (by decide) (by decide) (by decide) (by decide) (by decide)
  rw [h]
  decide

/-- C5 counterexample (to the claim's concrete example): the event with
`storyText=["hello ", " world"]` emits the body `"hello  world"` — the
two values are concatenated with no separator, so the double space stays —
which is not the `"hello world"` the claim states. -/
theorem non_tagged_example_counterexample :
    (postStory exForm5 exConf [] (fun _ => none) (fun _ => none)).emitted =
      some ⟨"hello  world", exConf.room, []⟩ ∧
    "hello  world" ≠ "hello world" := by
  constructor
  · decide
  · decide

/-- C5 (amended example): for every non-tagged story the emitted body is
the concatenation of all `storyText` values in encounter order (for the
example input, `"hello  world"` with two spaces), the destination is the
process-default room, the resolver runs iff at least one resolvable
identifier was accumulated, and the emitter appends the
`"(references: ...)"` footer exactly when the fragment list is
non-empty. -/
theorem non_tagged_story_route (form : List (String × List String)) (conf : Config)
    (cache : Cache) (remote : List String → Option JSON) (parse : String → Option JSON)
    (hs : (scanForm form conf.resolving).isStory = true)
    (ht : (scanForm form conf.resolving).isTagged = false) :
    ∃ call, (postStory form conf cache remote parse).emitted = some call ∧
      call.text = joinStrs (scanForm form conf.resolving).story ∧
      call.url = conf.room ∧
      ((postStory form conf cache remote parse).resolverInvoked = true ↔
        (scanForm form conf.resolving).phids ≠ []) ∧
      ((scanForm form conf.resolving).phids = [] → call.phids = []) ∧
      (execute call.text call.url call.phids).lookup "formatted_body" =
        some ("<body>" ++ emitVal call.text call.phids ++ "</body>") ∧
      (call.phids = [] → emitVal call.text call.phids = escapeString call.text) ∧
      (call.phids ≠ [] → emitVal call.text call.phids =
        escapeString call.text ++ "<br /> (references: " ++
          String.intercalate ", " call.phids ++ ")") := by
  rw [postStory_of_isStory form conf cache remote parse hs]
  refine ⟨⟨joinStrs (scanForm form conf.resolving).story, conf.room,
    (routePhase (scanForm form conf.resolving) conf cache remote).phids⟩, ?_, rfl, rfl, ?_, ?_, rfl, ?_, ?_⟩
  · show storyPhase _ _ _ _ = _
    rw [storyPhase_not_tagged _ _ _ _ ht]
  · show (routePhase (scanForm form conf.resolving) conf cache remote).invoked = true ↔ _
    exact routePhase_invoked_iff _ _ _ _ ht
  · intro hp
    rw [routePhase_of_no_phids _ _ _ _ hp]
  · intro hp
    show emitVal _ _ = _
    unfold emitVal
    rw [if_pos (by rw [hp]; rfl)]
  · intro hp
    show emitVal _ _ = _
    unfold emitVal
    rw [if_neg (by simpa using hp)]

/-- C5 witness: the concrete example event, with the corrected expected
body `"hello  world"`, no resolver run, and no references footer. -/
theorem non_tagged_story_route_witness :
    (scanForm exForm5 exConf.resolving).isStory = true ∧
    (scanForm exForm5 exConf.resolving).isTagged = false ∧
    (∃ call, (postStory exForm5 exConf [] (fun _ => none) (fun _ => none)).emitted = some call ∧
      call.text = joinStrs (scanForm exForm5 exConf.resolving).story ∧
      call.url = exConf.room ∧
      ((postStory exForm5 exConf [] (fun _ => none) (fun _ => none)).resolverInvoked = true ↔
        (scanForm exForm5 exConf.resolving).phids ≠ []) ∧
      ((scanForm exForm5 exConf.resolving).phids = [] → call.phids = []) ∧
      (execute call.text call.url call.phids).lookup "formatted_body" =
        some ("<body>" ++ emitVal call.text call.phids ++ "</body>") ∧
      (call.phids = [] → emitVal call.text call.phids = escapeString call.text) ∧
      (call.phids ≠ [] → emitVal call.text call.phids =
        escapeString call.text ++ "<br /> (references: " ++
          String.intercalate ", " call.phids ++ ")")) :=
  ⟨by decide, by decide,
    non_tagged_story_route exForm5 exConf [] (fun _ => none) (fun _ => none) (by decide) (by decide)⟩

/-- C2: the resolver's returned display-string list is always sorted
lexicographically (by the Go byte order on the whole fragment text); for a
fixed remote reply the output is independent of the input order; and on
the spec's `[B, A]` example — with the reply objects in either order —
the output is the alphabetical `exSorted`, for both input orders. -/
theorem resolver_output_sorted (resolving resolving' : List String)
    (lookups : List (String × String)) (cache : Cache) (resp : Option JSON)
    (hperm : resolving.Perm resolving') :
    (∀ (rs : List String) (lk : List (String × String)) (c : Cache)
        (rm : List String → Option JSON),
      List.Sorted (fun x y => strLe x y = true) (resolvePHIDs rs lk c rm).results) ∧
    (resolvePHIDs resolving lookups cache (fun _ => resp)).results =
      (resolvePHIDs resolving' lookups cache (fun _ => resp)).results ∧
    (resolvePHIDs [exB, exA] [] [] (fun _ => exResp1)).results = exSorted ∧
    (resolvePHIDs [exA, exB] [] [] (fun _ => exResp1)).results = exSorted ∧
    (resolvePHIDs [exB, exA] [] [] (fun _ => exResp2)).results = exSorted := by
  refine ⟨?_, ?_, by decide, by decide, by decide⟩
  · intro rs lk c rm
    cases hE : (misses rs c).isEmpty with
    | true =>
      rw [resolvePHIDs_of_isEmpty _ _ _ _ hE]
      exact sorted_finalPass _ _
    | false =>
      rw [resolvePHIDs_of_not_isEmpty _ _ _ _ hE]
      exact sorted_finalPass _ _
  · have hm : (misses resolving cache).Perm (misses resolving' cache) := hperm.filter _
    cases hE : (misses resolving cache).isEmpty with
    | true =>
      have hnil : misses resolving cache = [] := List.isEmpty_iff.mp hE
      have hE' : (misses resolving' cache).isEmpty = true := by
        rw [List.isEmpty_iff]
        exact List.Perm.eq_nil (hnil ▸ hm).symm
      rw [resolvePHIDs_of_isEmpty _ _ _ _ hE, resolvePHIDs_of_isEmpty _ _ _ _ hE']
      exact finalPass_perm _ _ _ hperm
    | false =>
      have hE' : (misses resolving' cache).isEmpty = false := by
        cases h2 : (misses resolving' cache).isEmpty
        · rfl
        · exfalso
          have hnil' : misses resolving' cache = [] := List.isEmpty_iff.mp h2
          have hme : misses resolving cache = [] := List.Perm.eq_nil (hnil' ▸ hm)
          rw [hme] at hE
          simp at hE
      rw [resolvePHIDs_of_not_isEmpty _ _ _ _ hE, resolvePHIDs_of_not_isEmpty _ _ _ _ hE']
      exact finalPass_perm _ _ _ hperm

/-- C2 witness: the permuted concrete inputs `[B, A]` and `[A, B]` give
the same (sorted) resolver output. -/
theorem resolver_output_sorted_witness :
    ([exB, exA] : List String).Perm [exA, exB] ∧
    (resolvePHIDs [exB, exA] [] [] (fun _ => exResp1)).results =
      (resolvePHIDs [exA, exB] [] [] (fun _ => exResp1)).results :=
  ⟨by decide,
    (resolver_output_sorted [exB, exA] [exA, exB] [] [] exResp1 (by decide)).2.1⟩

/-- C3: for an identifier `x` not yet cached, two sequential resolver
invocations that both contain `x` issue exactly one batched remote call
carrying `x` across both (provided the reply to the first batch actually
resolves `x`, i.e. contains an object stored under key `x`): the second
invocation finds `x` in the cache.  Moreover an invocation whose inputs
are all cached issues no remote call at all and leaves the cache
unchanged. -/
theorem resolve_twice_one_call (x : String) (resolving1 resolving2 : List String)
    (lookups : List (String × String)) (cache : Cache) (remote : List String → Option JSON)
    (h1 : x ∈ resolving1) (h2 : x ∈ resolving2) (h3 : cacheLoad cache x = none)
    (h4 : x ∈ storeKeys (responseObjects (remote (misses resolving1 cache)))) :
    (((resolvePHIDs resolving1 lookups cache remote).calls ++
        (resolvePHIDs resolving2 lookups
          (resolvePHIDs resolving1 lookups cache remote).cache remote).calls).countP
          (fun c => decide (x ∈ c)) = 1) ∧
    ((cacheLoad (resolvePHIDs resolving1 lookups cache remote).cache x).isSome = true) ∧
    (∀ (rs : List String) (lk : List (String × String)) (c : Cache)
        (rm : List String → Option JSON),
      (∀ e ∈ rs, (cacheLoad c e).isSome = true) →
      (resolvePHIDs rs lk c rm).calls = [] ∧ (resolvePHIDs rs lk c rm).cache = c) := by
  have hx1 : x ∈ misses resolving1 cache := by
    apply List.mem_filter.mpr
    refine ⟨h1, ?_⟩
    simp [h3]
  have hne : (misses resolving1 cache).isEmpty = false := by
    cases hE : (misses resolving1 cache).isEmpty
    · rfl
    · exfalso
      rw [List.isEmpty_iff.mp hE] at hx1
      exact List.not_mem_nil x hx1
  rw [resolvePHIDs_of_not_isEmpty _ _ _ _ hne]
  have hc2 : (cacheLoad (processResponse
      (responseObjects (remote (misses resolving1 cache))) lookups cache) x).isSome = true :=
    isSome_processResponse_of_mem _ _ _ _ h4
  refine ⟨?_, hc2, ?_⟩
  · have hx2 : x ∉ misses resolving2
        (processResponse (responseObjects (remote (misses resolving1 cache))) lookups cache) := by
      intro hmem
      have hn := (List.mem_filter.mp hmem).2
      rw [Option.isNone_iff_eq_none] at hn
      rw [hn] at hc2
      simp at hc2
    cases hE2 : (misses resolving2
        (processResponse (responseObjects (remote (misses resolving1 cache))) lookups cache)).isEmpty with
    | true =>
      rw [resolvePHIDs_of_isEmpty _ _ _ _ hE2]
      simp [List.countP_cons, hx1]
    | false =>
      rw [resolvePHIDs_of_not_isEmpty _ _ _ _ hE2]
      simp [List.countP_cons, hx1, hx2]
  · intro rs lk c rm hall
    have hnil : misses rs c = [] := by
      apply List.filter_eq_nil_iff.mpr
      intro a ha
      simp only [Option.isNone_iff_eq_none]
      have hs := hall a ha
      intro hcon
      rw [hcon] at hs
      simp at hs
    have hE : (misses rs c).isEmpty = true := by
      rw [hnil]
      rfl
    rw [resolvePHIDs_of_isEmpty _ _ _ _ hE]
    exact ⟨rfl, rfl⟩

/-- C3 witness: two concrete sequential resolutions of the same fresh
identifier against a well-formed remote issue one batched call for it. -/
theorem resolve_twice_one_call_witness :
    cacheLoad ([] : Cache) "PHID-TASK-1" = none ∧
    "PHID-TASK-1" ∈ storeKeys (responseObjects (echoRemote (misses ["PHID-TASK-1"] []))) ∧
    (((resolvePHIDs ["PHID-TASK-1"] [] [] echoRemote).calls ++
        (resolvePHIDs ["PHID-TASK-1"] []
          (resolvePHIDs ["PHID-TASK-1"] [] [] echoRemote).cache echoRemote).calls).countP
          (fun c => decide ("PHID-TASK-1" ∈ c)) = 1) :=
  ⟨by decide, by decide,
    (resolve_twice_one_call "PHID-TASK-1" ["PHID-TASK-1"] ["PHID-TASK-1"] [] [] echoRemote
      (by decide) (by decide) (by decide) (by decide)).1⟩

/-- C8: when the remote reply only ever stores under keys it was asked for
(the documented `phid.query` interface shape), every `Store` performed by
one `resolvePHIDs` invocation is for a key that was a cache miss at the
start of that invocation, and an already-cached entry is never
overwritten — the invocation leaves its value untouched. -/
theorem cache_write_once (resolving : List String) (lookups : List (String × String))
    (cache : Cache) (remote : List String → Option JSON) (x : String)
    (hwf : ∀ k ∈ storeKeys (responseObjects (remote (misses resolving cache))),
      k ∈ misses resolving cache) :
    (∀ k ∈ storeKeys (responseObjects (remote (misses resolving cache))),
      cacheLoad cache k = none) ∧
    ((cacheLoad cache x).isSome = true →
      cacheLoad (resolvePHIDs resolving lookups cache remote).cache x = cacheLoad cache x) := by
  constructor
  · intro k hk
    exact Option.isNone_iff_eq_none.mp (List.mem_filter.mp (hwf k hk)).2
  · intro hx
    cases hE : (misses resolving cache).isEmpty with
    | true =>
      rw [resolvePHIDs_of_isEmpty _ _ _ _ hE]
    | false =>
      rw [resolvePHIDs_of_not_isEmpty _ _ _ _ hE]
      show cacheLoad (processResponse _ _ _) x = _
      apply load_processResponse_of_not_mem
      intro hmem
      have hn := (List.mem_filter.mp (hwf x hmem)).2
      rw [Option.isNone_iff_eq_none] at hn
      rw [hn] at hx
      simp at hx

/-- C8 witness: with one identifier already cached and one fresh, the
fresh one is the only store key, and the cached entry survives the
invocation unchanged. -/
theorem cache_write_once_witness :
    (∀ k ∈ storeKeys (responseObjects (echoRemote
        (misses ["PHID-USER-a", "PHID-TASK-1"] [("PHID-USER-a", ["f"])]))),
      k ∈ misses ["PHID-USER-a", "PHID-TASK-1"] [("PHID-USER-a", ["f"])]) ∧
    (cacheLoad [("PHID-USER-a", ["f"])] "PHID-USER-a").isSome = true ∧
    cacheLoad (resolvePHIDs ["PHID-USER-a", "PHID-TASK-1"] []
        [("PHID-USER-a", ["f"])] echoRemote).cache "PHID-USER-a" =
      cacheLoad [("PHID-USER-a", ["f"])] "PHID-USER-a" :=
  ⟨by decide, by decide,
    (cache_write_once ["PHID-USER-a", "PHID-TASK-1"] [] [("PHID-USER-a", ["f"])]
      echoRemote "PHID-USER-a" (by decide)).2 (by decide)⟩

/-- C7: a `paste.search` reply deviating from the expected shape — an
unparsable body, a missing key anywhere on
`result.data[0].attachments.content.content`, zero or more than one
matching document, or inner content that does not parse as a JSON object
of strings — makes `initLookups` return the empty mapping (and the
function is total, so the process never fails). -/
theorem alias_bootstrap_deviation (r : Option JSON) (parse : String → Option JSON)
    (hdev : ¬ WellShapedAliasResponse r parse) :
    initLookups r parse = [] := by
  by_contra hne
  apply hdev
  unfold initLookups at hne
  cases h1 : r.bind getJSONFields with
  | none =>
    simp only [h1] at hne
    exact absurd trivial hne
  | some output =>
    simp only [h1] at hne
    cases h2 : (output.lookup "result").bind getJSONFields with
    | none =>
      simp only [h2] at hne
      exact absurd trivial hne
    | some res =>
      simp only [h2] at hne
      cases h3 : (res.lookup "data").bind asArr with
      | none =>
        simp only [h3] at hne
        exact absurd trivial hne
      | some content =>
        simp only [h3] at hne
        match content, hne with
        | [], hne => exact absurd rfl hne
        | _ :: _ :: _, hne => exact absurd rfl hne
        | [doc], hne =>
          cases h4 : digJSONOut (some doc) ["attachments", "content"] with
          | none =>
            simp only [h4] at hne
            exact absurd trivial hne
          | some res2 =>
            simp only [h4] at hne
            cases h5 : (res2.lookup "content").bind asString with
            | none =>
              simp only [h5] at hne
              exact absurd trivial hne
            | some data =>
              simp only [h5] at hne
              cases h6 : (parse data).bind asStringMap with
              | none =>
                simp only [h6] at hne
                exact absurd trivial hne
              | some m =>
                exact ⟨output, res, [doc], doc, res2, data, m,
                  h1, h2, h3, rfl, h4, h5, h6⟩

/-- C7 witness: an unparsable reply is not well-shaped and yields the
empty alias mapping. -/
theorem alias_bootstrap_deviation_witness :
    ¬ WellShapedAliasResponse none (fun _ => none) ∧
    initLookups none (fun _ => none) = [] := by
  have hdev : ¬ WellShapedAliasResponse none (fun _ => none) := by
    rintro ⟨output, res, content, doc, res2, data, m, hout, -⟩
    simp at hout
  exact ⟨hdev, alias_bootstrap_deviation none (fun _ => none) hdev⟩

theorem runSchedule_seq (lookups : List (String × String)) (remote : List String → Option JSON)
    (r1 r2 : List String) (cache : Cache) (log : List (List String)) :
    runSchedule lookups remote [0, 0, 1, 1] [HState.ready r1, HState.ready r2] ⟨cache, log⟩ =
      ([HState.finished (resolvePHIDs r1 lookups cache remote).results,
        HState.finished (resolvePHIDs r2 lookups
          (resolvePHIDs r1 lookups cache remote).cache remote).results],
       ⟨(resolvePHIDs r2 lookups (resolvePHIDs r1 lookups cache remote).cache remote).cache,
        (log ++ (resolvePHIDs r1 lookups cache remote).calls) ++
          (resolvePHIDs r2 lookups (resolvePHIDs r1 lookups cache remote).cache remote).calls⟩) := by
  cases hE1 : (misses r1 cache).isEmpty with
  | true =>
    rw [resolvePHIDs_of_isEmpty _ _ _ _ hE1]
    cases hE2 : (misses r2 cache).isEmpty with
    | true =>
      rw [resolvePHIDs_of_isEmpty _ _ _ _ hE2]
      simp [runSchedule, stepHandler, hE1, hE2]
    | false =>
      rw [resolvePHIDs_of_not_isEmpty _ _ _ _ hE2]
      simp [runSchedule, stepHandler, hE1, hE2]
  | false =>
    rw [resolvePHIDs_of_not_isEmpty _ _ _ _ hE1]
    cases hE2 : (misses r2
        (processResponse (responseObjects (remote (misses r1 cache))) lookups cache)).isEmpty with
    | true =>
      rw [resolvePHIDs_of_isEmpty _ _ _ _ hE2]
      simp [runSchedule, stepHandler, hE1, hE2]
    | false =>
      rw [resolvePHIDs_of_not_isEmpty _ _ _ _ hE2]
      simp [runSchedule, stepHandler, hE1, hE2]

theorem echoRemote_storeKeys (batch : List String) :
    storeKeys (responseObjects (echoRemote batch)) = batch := by
  have h1 : responseObjects (echoRemote batch) =
      (batch.map (fun p =>
        (p, JSON.obj [("phid", JSON.str p), ("name", JSON.str "n"), ("uri", JSON.str "u")]))).map
          Prod.snd := rfl
  rw [storeKeys, h1, List.map_map, List.filterMap_map]
  have hfn : (storeKeyOf ∘ Prod.snd ∘ fun p =>
      (p, JSON.obj [("phid", JSON.str p), ("name", JSON.str "n"), ("uri", JSON.str "u")])) =
      some := by
    funext p
    rfl
  rw [hfn, List.filterMap_some]

theorem echoRemote_covers (batch : List String) (e : String) (he : e ∈ batch) :
    e ∈ storeKeys (responseObjects (echoRemote batch)) := by
  rw [echoRemote_storeKeys]
  exact he

/-- C9 counterexample: two concurrent handlers resolving the same
never-before-seen identifier, interleaved so that both cache-miss scans
run before either store (schedule `[0, 1, 0, 1]`, an interleaving the Go
code permits because no lock spans the `Load` scan and the later
`Store`), issue TWO remote batched calls carrying that identifier — even
against a perfectly well-formed remote (`echoRemote`). -/
theorem concurrent_duplicate_call_counterexample :
    cacheLoad ([] : Cache) "PHID-TASK-1" = none ∧
    ((runSchedule [] echoRemote [0, 1, 0, 1]
        [HState.ready ["PHID-TASK-1"], HState.ready ["PHID-TASK-1"]]
        ⟨[], []⟩).2.callLog.countP (fun c => decide ("PHID-TASK-1" ∈ c))) = 2 := by
  constructor
  · decide
  · decide

/-- C9 (amended): when the two handlers run sequentially — each one
finishes before the next starts (schedule `[0, 0, 1, 1]`) — and the
remote resolves every identifier it is asked for, at most one batched
call carries any given identifier, and none does if that identifier was
already cached.  (Under interleaved schedules the code offers no such
guarantee; see the counterexample.) -/
theorem sequential_no_duplicate_calls (r1 r2 : List String)
    (lookups : List (String × String)) (cache : Cache)
    (remote : List String → Option JSON) (x : String)
    (hcov : ∀ batch, ∀ e ∈ batch, e ∈ storeKeys (responseObjects (remote batch))) :
    ((runSchedule lookups remote [0, 0, 1, 1]
        [HState.ready r1, HState.ready r2] ⟨cache, []⟩).2.callLog.countP
          (fun c => decide (x ∈ c)) ≤ 1) ∧
    ((cacheLoad cache x).isSome = true →
      (runSchedule lookups remote [0, 0, 1, 1]
        [HState.ready r1, HState.ready r2] ⟨cache, []⟩).2.callLog.countP
          (fun c => decide (x ∈ c)) = 0) := by
  rw [runSchedule_seq]
  constructor
  · show ((([] ++ (resolvePHIDs r1 lookups cache remote).calls) ++
      (resolvePHIDs r2 lookups (resolvePHIDs r1 lookups cache remote).cache remote).calls).countP
        (fun c => decide (x ∈ c))) ≤ 1
    rw [List.nil_append, List.countP_append]
    cases hE1 : (misses r1 cache).isEmpty with
    | true =>
      rw [resolvePHIDs_of_isEmpty _ _ _ _ hE1]
      show List.countP _ [] + List.countP _ (resolvePHIDs r2 lookups cache remote).calls ≤ 1
      rw [List.countP_nil, Nat.zero_add]
      cases hE2 : (misses r2 cache).isEmpty with
      | true =>
        rw [resolvePHIDs_of_isEmpty _ _ _ _ hE2]
        simp
      | false =>
        rw [resolvePHIDs_of_not_isEmpty _ _ _ _ hE2]
        exact le_trans (List.countP_le_length _) (by simp)
    | false =>
      rw [resolvePHIDs_of_not_isEmpty _ _ _ _ hE1]
      by_cases hx1 : x ∈ misses r1 cache
      · have hc : (cacheLoad (processResponse
            (responseObjects (remote (misses r1 cache))) lookups cache) x).isSome = true :=
          isSome_processResponse_of_mem _ _ _ _ (hcov _ x hx1)
        have hx2 : x ∉ misses r2
            (processResponse (responseObjects (remote (misses r1 cache))) lookups cache) := by
          intro hmem
          have hn := (List.mem_filter.mp hmem).2
          rw [Option.isNone_iff_eq_none] at hn
          rw [hn] at hc
          simp at hc
        cases hE2 : (misses r2
            (processResponse (responseObjects (remote (misses r1 cache))) lookups cache)).isEmpty with
        | true =>
          rw [resolvePHIDs_of_isEmpty _ _ _ _ hE2]
          simp [List.countP_cons, hx1]
        | false =>
          rw [resolvePHIDs_of_not_isEmpty _ _ _ _ hE2]
          simp [List.countP_cons, hx1, hx2]
      · cases hE2 : (misses r2
            (processResponse (responseObjects (remote (misses r1 cache))) lookups cache)).isEmpty with
        | true =>
          rw [resolvePHIDs_of_isEmpty _ _ _ _ hE2]
          simp [List.countP_cons, hx1]
        | false =>
          rw [resolvePHIDs_of_not_isEmpty _ _ _ _ hE2]
          by_cases hx2 : x ∈ misses r2
            (processResponse (responseObjects (remote (misses r1 cache))) lookups cache)
          · simp [List.countP_cons, hx1, hx2]
          · simp [List.countP_cons, hx1, hx2]
  · intro hx
    show ((([] ++ (resolvePHIDs r1 lookups cache remote).calls) ++
      (resolvePHIDs r2 lookups (resolvePHIDs r1 lookups cache remote).cache remote).calls).countP
        (fun c => decide (x ∈ c))) = 0
    rw [List.nil_append, List.countP_append]
    have hx1 : x ∉ misses r1 cache := by
      intro hmem
      have hn := (List.mem_filter.mp hmem).2
      rw [Option.isNone_iff_eq_none] at hn
      rw [hn] at hx
      simp at hx
    cases hE1 : (misses r1 cache).isEmpty with
    | true =>
      rw [resolvePHIDs_of_isEmpty _ _ _ _ hE1]
      have hx2 : x ∉ misses r2 cache := by
        intro hmem
        have hn := (List.mem_filter.mp hmem).2
        rw [Option.isNone_iff_eq_none] at hn
        rw [hn] at hx
        simp at hx
      cases hE2 : (misses r2 cache).isEmpty with
      | true =>
        rw [resolvePHIDs_of_isEmpty _ _ _ _ hE2]
        simp
      | false =>
        rw [resolvePHIDs_of_not_isEmpty _ _ _ _ hE2]
        simp [List.countP_cons, hx2]
    | false =>
      rw [resolvePHIDs_of_not_isEmpty _ _ _ _ hE1]
      have hc : (cacheLoad (processResponse
          (responseObjects (remote (misses r1 cache))) lookups cache) x).isSome = true :=
        isSome_processResponse_of_isSome _ _ _ _ hx
      have hx2 : x ∉ misses r2
          (processResponse (responseObjects (remote (misses r1 cache))) lookups cache) := by
        intro hmem
        have hn := (List.mem_filter.mp hmem).2
        rw [Option.isNone_iff_eq_none] at hn
        rw [hn] at hc
        simp at hc
      cases hE2 : (misses r2
          (processResponse (responseObjects (remote (misses r1 cache))) lookups cache)).isEmpty with
      | true =>
        rw [resolvePHIDs_of_isEmpty _ _ _ _ hE2]
        simp [List.countP_cons, hx1]
      | false =>
        rw [resolvePHIDs_of_not_isEmpty _ _ _ _ hE2]
        simp [List.countP_cons, hx1, hx2]

/-- C9 witness (for the amended sequential guarantee): a concrete
sequential run of two handlers over the same fresh identifier against a
well-formed remote issues exactly one call for it; the theorem bounds it
by one. -/
theorem sequential_no_duplicate_calls_witness :
    ((runSchedule [] echoRemote [0, 0, 1, 1]
        [HState.ready ["PHID-TASK-1"], HState.ready ["PHID-TASK-1"]]
        ⟨[], []⟩).2.callLog.countP (fun c => decide ("PHID-TASK-1" ∈ c)) = 1) ∧
    ((runSchedule [] echoRemote [0, 0, 1, 1]
        [HState.ready ["PHID-TASK-1"], HState.ready ["PHID-TASK-1"]]
        ⟨[], []⟩).2.callLog.countP (fun c => decide ("PHID-TASK-1" ∈ c)) ≤ 1) :=
  ⟨by decide,
    (sequential_no_duplicate_calls ["PHID-TASK-1"] ["PHID-TASK-1"] [] [] echoRemote
      "PHID-TASK-1" (fun batch e he => echoRemote_covers batch e he)).1⟩

end PhabHttp
